import Mathlib

/-!
Verification of the LLAMA.CPP-Trainer orchestration layer
(`lora_inference.cpp`, `lora_train.cpp`).

Byte strings are modelled as `List Nat` (each element a byte value).
Engine behaviour (tokenizer, sampler, decode) is abstracted: each
generation-loop iteration is driven by a `GenStep` recording whether the
sampled token is end-of-generation, the byte fragment
`llama_token_to_piece` produced for it, and whether the subsequent
`llama_decode` call succeeded.
-/

namespace LoraTrainer

/-- A byte is a continuation byte when `(b & 0xC0) == 0x80`
(`lora_inference.cpp:37`). -/
def isCont (b : Nat) : Bool := b &&& 0xC0 == 0x80

/-- Expected total length of a UTF-8 character from its lead byte,
`0` for an invalid lead (`lora_inference.cpp:41-45`). -/
def leadLen (b : Nat) : Nat :=
  if b &&& 0x80 = 0 then 1
  else if b &&& 0xE0 = 0xC0 then 2
  else if b &&& 0xF0 = 0xE0 then 3
  else if b &&& 0xF8 = 0xF0 then 4
  else 0

/-- Translation of `utf8_complete_len` (`lora_inference.cpp:34-48`):
scan backwards over continuation bytes; if the trailing character is
complete return the whole length, otherwise return the offset of its
lead byte (or `0` when the buffer is all continuation bytes). -/
def utf8_complete_len (buf : List Nat) : Nat :=
  if buf.length = 0 then 0
  else
    let k := (buf.reverse.takeWhile isCont).length
    if k = buf.length then 0
    else
      let i := buf.length - 1 - k
      let expected := leadLen (buf.getD i 0)
      if expected = 0 then i
      else if expected ≤ buf.length - i then buf.length
      else i

/-- UTF-8 scanner: `utf8Scan k l` holds when, after `k` pending
continuation bytes, `l` consists of complete UTF-8 characters. -/
def utf8Scan : Nat → List Nat → Bool
  | 0, [] => true
  | 0, b :: rest => if leadLen b = 0 then false else utf8Scan (leadLen b - 1) rest
  | _ + 1, [] => false
  | k + 1, b :: rest => isCont b && utf8Scan k rest

/-- Like `utf8Scan` but a trailing incomplete character is allowed:
the buffer is a prefix of some valid UTF-8 byte sequence. -/
def utf8ScanP : Nat → List Nat → Bool
  | 0, [] => true
  | 0, b :: rest => if leadLen b = 0 then false else utf8ScanP (leadLen b - 1) rest
  | _ + 1, [] => true
  | k + 1, b :: rest => isCont b && utf8ScanP k rest

/-- The buffer is a whole number of complete UTF-8 characters. -/
def utf8CompleteB (l : List Nat) : Bool := utf8Scan 0 l

/-- The buffer is a prefix of a valid UTF-8 byte sequence
(complete characters followed by at most one incomplete character). -/
def utf8PrefixOkB (l : List Nat) : Bool := utf8ScanP 0 l

/-- ASCII string to byte list (all characters below `0x80`). -/
def asciiBytes (s : String) : List Nat := s.data.map Char.toNat

example : utf8_complete_len (asciiBytes "hi") = 2 := by decide
example : utf8_complete_len [0x68, 0xC3] = 1 := by decide
example : utf8_complete_len [0xC3, 0xA9] = 2 := by decide
example : utf8_complete_len [0xE2, 0x82] = 0 := by decide
example : utf8_complete_len [0x61, 0xE2, 0x82, 0xAC] = 4 := by decide
example : utf8CompleteB [0x61, 0xE2, 0x82, 0xAC] = true := by decide
example : utf8CompleteB [0x61, 0xE2, 0x82] = false := by decide
example : utf8PrefixOkB [0x61, 0xE2, 0x82] = true := by decide
example : utf8PrefixOkB [0x82, 0x61] = false := by decide

/-! ## Generation sessions (`generate`, `generateStreaming`) -/

/-- The configured textual stop sequences, in configuration order
(`lora_inference.cpp:372-378` and `550-556`). -/
def stop_strs : List (List Nat) :=
  [asciiBytes "<|im_end|>", asciiBytes "<|im_start|>",
   asciiBytes "<|eot_id|>", asciiBytes "<|start_header_id|>",
   asciiBytes "<end_of_turn>", asciiBytes "<start_of_turn>",
   asciiBytes "<|end|>", asciiBytes "<|user|>", asciiBytes "<|assistant|>"]

/-- First configured stop string that is a suffix of the accumulated text
(the detection loop at `lora_inference.cpp:404-414` / `583-593`). -/
def findStop (acc : List Nat) : Option (List Nat) :=
  stop_strs.find? (fun s => s.isSuffixOf acc)

/-- `max_stop_len` as computed at `lora_inference.cpp:613-617`. -/
def max_stop_len : Nat := (stop_strs.map List.length).foldl Nat.max 0

example : max_stop_len = 19 := by decide

/-- One iteration of the decode loop, abstracting the engine: whether the
sampled token satisfies `llama_vocab_is_eog`, the bytes appended by
`llama_token_to_piece` (empty list when `n <= 0`), and whether the
single-token `llama_decode` at the end of the iteration returned 0. -/
structure GenStep where
  eog : Bool
  piece : List Nat
  decodeOk : Bool
deriving DecidableEq, Repr

/-- The non-streaming decode loop of `Java_com_dark_lora_LoraJNI_generate`
(`lora_inference.cpp:388-424`), returning the final `result` string.
A decode failure mid-loop is a plain `break` (`lora_inference.cpp:419-422`). -/
def generateLoop : List GenStep → List Nat → List Nat
  | [], acc => acc
  | step :: rest, acc =>
    if step.eog then acc
    else
      let acc := acc ++ step.piece
      match findStop acc with
      | some s => acc.take (acc.length - s.length)
      | none => if step.decodeOk then generateLoop rest acc else acc

/-- Errors surfaced by the generation entry points (the `ERROR:` strings). -/
inductive GenError where
  | emptyPrompt
  | promptTooLong
  | decodeFailure
deriving DecidableEq, Repr

/-- The full non-streaming `generate` call (`lora_inference.cpp:322-434`):
guard checks on the tokenized prompt, a prefill decode that may fail, then
the decode loop.  `promptTokens` is the tokenizer output, `prefillOk`
whether `llama_decode` on the prompt batch returned 0. -/
def generate (promptTokens : List Nat) (nCtx : Nat) (prefillOk : Bool)
    (steps : List GenStep) : Except GenError (List Nat) :=
  if promptTokens.length = 0 then .error .emptyPrompt
  else if nCtx ≤ promptTokens.length then .error .promptTooLong
  else if ¬prefillOk then .error .decodeFailure
  else .ok (generateLoop steps [])

/-- State of the streaming generator: the accumulated generated text,
`n_streamed_chars`, and the ordered list of chunks passed to `onToken`. -/
structure StreamState where
  accumulated : List Nat
  n_streamed : Nat
  chunks : List (List Nat)
deriving DecidableEq, Repr

/-- How a streaming call terminated: `onComplete` or `onError`. -/
inductive StreamOutcome where
  | completed
  | errored
deriving DecidableEq, Repr

/-- The flush of the not-yet-streamed tail of `accumulated`, used both on
a stop-string match (`lora_inference.cpp:595-606`) and at the end of the
loop (`lora_inference.cpp:651-662`).  Neither site advances
`n_streamed_chars`. -/
def flushTail (st : StreamState) : StreamState :=
  if st.n_streamed < st.accumulated.length then
    let remaining := st.accumulated.drop st.n_streamed
    let safe := utf8_complete_len remaining
    if 0 < safe then { st with chunks := st.chunks ++ [remaining.take safe] }
    else st
  else st

/-- The streaming decode loop of
`Java_com_dark_lora_LoraJNI_generateStreaming`
(`lora_inference.cpp:566-671`): sample/EOG check, append piece, stop
detection with truncation and flush, delta emission holding back
`max_stop_len` bytes and trimming to a UTF-8 boundary, then the
single-token decode whose failure sends `onError` and returns without the
final flush. -/
def streamLoop : List GenStep → StreamState → StreamState × StreamOutcome
  | [], st => (flushTail st, .completed)
  | step :: rest, st =>
    if step.eog then (flushTail st, .completed)
    else
      let acc := st.accumulated ++ step.piece
      match findStop acc with
      | some s =>
        let st := { st with accumulated := acc.take (acc.length - s.length) }
        (flushTail (flushTail st), .completed)
      | none =>
        let st := { st with accumulated := acc }
        let st :=
          if st.n_streamed + max_stop_len < acc.length then
            let chunkLen := acc.length - max_stop_len - st.n_streamed
            let safe := utf8_complete_len ((acc.drop st.n_streamed).take chunkLen)
            if 0 < safe then
              { st with chunks := st.chunks ++ [(acc.drop st.n_streamed).take safe],
                        n_streamed := st.n_streamed + safe }
            else st
          else st
        if step.decodeOk then streamLoop rest st else (st, .errored)

/-- Run a streaming generation from the start of the decode loop. -/
def streamGenerate (steps : List GenStep) : StreamState × StreamOutcome :=
  streamLoop steps ⟨[], 0, []⟩

/-- The first `n` token pieces of a run, concatenated: the generated byte
stream before any stop truncation. -/
def byteStream (steps : List GenStep) (n : Nat) : List Nat :=
  ((steps.take n).map GenStep.piece).flatten

example :
    (streamGenerate [⟨false, asciiBytes "hi", true⟩,
                     ⟨false, asciiBytes "<|im_end|>", true⟩]).1.chunks =
      [asciiBytes "hi", asciiBytes "hi"] := by decide

example :
    generateLoop [⟨false, asciiBytes "<|end|", true⟩,
                  ⟨false, asciiBytes "><|im_end|>", true⟩] [] =
      asciiBytes "<|end|>" := by decide

/-! ## Prompt prefill (`lora_inference.cpp:509-541` vs single-batch paths) -/

/-- One slot of a `llama_batch` as filled by the streaming prefill:
token id, position, and whether output logits are requested. -/
structure BatchEntry where
  tok : Nat
  pos : Nat
  logits : Bool
deriving DecidableEq, Repr

/-- Chunked prefill of `generateStreaming` (`lora_inference.cpp:509-541`):
take at most `nBatch` tokens per chunk, position `pos + i` with `pos`
advancing by each chunk's size, logits requested exactly when
`idx + i + 1 == tokens.size()`.  `total` is the full prompt length.
The source loop does not terminate when `nBatch = 0` (`llama_n_batch` is
always positive); the model returns `[]` in that vacuous case. -/
def prefillGo (nBatch total : Nat) : List Nat → Nat → List (List BatchEntry)
  | [], _ => []
  | t :: ts, idx =>
    let take := min nBatch (t :: ts).length
    if h : take = 0 then []
    else
      ((List.range take).map
        (fun i => ⟨(t :: ts).getD i 0, idx + i, idx + i + 1 == total⟩)) ::
        prefillGo nBatch total ((t :: ts).drop take) (idx + take)
termination_by ts _ => ts.length
decreasing_by
  simp only [List.length_drop, List.length_cons]
  omega

/-- The batches decoded by the streaming prefill for a given prompt. -/
def streamingPrefill (nBatch : Nat) (tokens : List Nat) : List (List BatchEntry) :=
  prefillGo nBatch tokens.length tokens 0

/-- The non-streaming `generate` prompt decode
(`lora_inference.cpp:365` / `lora_train.cpp:538`): the whole prompt is
submitted as a single `llama_batch_get_one` batch. -/
def nonStreamingPrefill (tokens : List Nat) : List (List Nat) := [tokens]

/-- `ctx_params.n_batch` for inference contexts (`lora_inference.cpp:255`). -/
def inference_n_batch : Nat := 512

/-- Default inference context size (`lora_inference.cpp:248`). -/
def inference_default_n_ctx : Nat := 2048

/-! ## Training: dataset windower and epoch split (`lora_train.cpp`) -/

/-- Training-side errors (the `ERROR:` strings of `lora_train.cpp`). -/
inductive TrainError where
  | contextNotInitialized
  | trainingTextTooShort
deriving DecidableEq, Repr

/-- Fuel-bounded version of the padding loop of `setTrainingData`
(`lora_train.cpp:335-338`): while the token sequence is shorter than
`minT`, append the whole original sequence.  Each iteration grows `cur`
by at least one token when `original ≠ []`, so `minT + 1` fuel always
suffices and the fuel never cuts the loop short; when `original = []` the
source loop does not terminate (unreachable: the caller requires at least
2 tokens) and the fuel stops the model. -/
def padTokensGo (original : List Nat) (minT : Nat) : Nat → List Nat → List Nat
  | 0, cur => cur
  | fuel + 1, cur =>
    if cur.length < minT then padTokensGo original minT fuel (cur ++ original)
    else cur

/-- The padding loop of `setTrainingData` (`lora_train.cpp:335-338`). -/
def padTokens (original : List Nat) (minT : Nat) (cur : List Nat) : List Nat :=
  padTokensGo original minT (minT + 1) cur

/-- The dataset windower of `Java_com_dark_lora_LoraJNI_setTrainingData`
(`lora_train.cpp:321-345`): fail when fewer than 2 tokens, compute
`stride = max(1, n_ctx / 2)`, pad by whole repetitions up to
`n_ctx + 1 + stride`, and hand the (padded) tokens plus stride to
`common_opt_dataset_init`.  Returns the padded token sequence and the
stride. -/
def setTrainingData (tokens : List Nat) (nCtx : Nat) :
    Except TrainError (List Nat × Nat) :=
  if tokens.length < 2 then .error .trainingTextTooShort
  else
    let stride := max 1 (nCtx / 2)
    let minT := nCtx + 1 + stride
    let padded := if tokens.length < minT then padTokens tokens minT tokens else tokens
    .ok (padded, stride)

/-- Number of examples produced by `ggml_opt_dataset` over `len` tokens at
the given stride and context size (spec section 3:
`ndata = floor((len - (n_ctx+1)) / stride) + 1`). -/
def datasetNdata (len nCtx stride : Nat) : Nat :=
  (len - (nCtx + 1)) / stride + 1

/-- The train/eval split of `Java_com_dark_lora_LoraJNI_trainEpoch`
(`lora_train.cpp:402-415`). -/
def idata_split (ndata : Nat) : Nat :=
  if 2 ≤ ndata then
    let s := max 1 (ndata * 95 / 100)
    if ndata ≤ s then ndata - 1 else s
  else ndata

/-- `has_eval` of `trainEpoch` (`lora_train.cpp:402-415`). -/
def has_eval (ndata : Nat) : Bool := 2 ≤ ndata

/-! ## Global handle state machine (both translation units share the
shape: globals `g_model`, `g_context`, `g_adapter`, `g_dataset`,
`g_backend_initialized`; `optInit` records whether `llama_opt_init` has
been called, which no C global tracks). -/

/-- Whether each global handle is non-null. -/
structure JState where
  backendInit : Bool
  model : Bool
  ctx : Bool
  adapter : Bool
  dataset : Bool
  optInit : Bool
deriving DecidableEq, Repr

/-- Errors returned by the JNI entry points modelled below. -/
inductive JErr where
  | backendNotInitialized
  | modelLoadFailed
  | contextCreateFailed
  | modelNotLoaded
  | adapterCreateFailed
  | adapterLoadFailed
  | adapterApplyFailed
  | contextNotInitialized
  | trainingTextTooShort
  | trainingNotReady
  | trainingNotInitialized
deriving DecidableEq, Repr

/-- Result of a JNI call: an error string or a success (for `trainEpoch`,
success means `llama_opt_epoch` actually ran). -/
inductive JResult where
  | ok
  | err (e : JErr)
deriving DecidableEq, Repr

/-- Whether a `JResult` is an error. -/
def JResult.isErr : JResult → Bool
  | .ok => false
  | .err _ => true

/-- `initLlamaBackend` (`lora_train.cpp:141-158`). -/
def initBackend (st : JState) : JState := { st with backendInit := true }

/-- `loadModel` (`lora_inference.cpp:214-283` / `lora_train.cpp:163-225`):
backend guard, free previous context and model, load (may fail), create
context (may fail, freeing the model).  `g_adapter` is not touched.
`loadOk` and `ctxOk` abstract the engine's results. -/
def loadModel (st : JState) (loadOk ctxOk : Bool) : JState × JResult :=
  if ¬st.backendInit then (st, .err .backendNotInitialized)
  else
    let st := { st with ctx := false, model := false }
    if ¬loadOk then (st, .err .modelLoadFailed)
    else
      let st := { st with model := true }
      if ¬ctxOk then ({ st with model := false }, .err .contextCreateFailed)
      else ({ st with ctx := true }, .ok)

/-- `createLoraAdapter` (`lora_train.cpp:230-267`): model guard, free
previous adapter, create (may fail), apply (may fail, freeing the new
adapter). -/
def createLoraAdapter (st : JState) (createOk applyOk : Bool) : JState × JResult :=
  if ¬(st.model && st.ctx) then (st, .err .modelNotLoaded)
  else
    let st := { st with adapter := false }
    if ¬createOk then (st, .err .adapterCreateFailed)
    else
      let st := { st with adapter := true }
      if ¬applyOk then ({ st with adapter := false }, .err .adapterApplyFailed)
      else (st, .ok)

/-- `loadLoraAdapter` (`lora_inference.cpp:287-318` /
`lora_train.cpp:272-303`): same shape as `createLoraAdapter`. -/
def loadLoraAdapter (st : JState) (initOk applyOk : Bool) : JState × JResult :=
  if ¬(st.model && st.ctx) then (st, .err .modelNotLoaded)
  else
    let st := { st with adapter := false }
    if ¬initOk then (st, .err .adapterLoadFailed)
    else
      let st := { st with adapter := true }
      if ¬applyOk then ({ st with adapter := false }, .err .adapterApplyFailed)
      else (st, .ok)

/-- `setTrainingData` guards and state effect (`lora_train.cpp:308-350`):
context guard, token-count guard, then the dataset is (re)created.
`tokLen` is the tokenizer's output length. -/
def setTrainingDataOp (st : JState) (tokLen : Nat) : JState × JResult :=
  if ¬st.ctx then (st, .err .contextNotInitialized)
  else
    let st := { st with dataset := false }
    if tokLen < 2 then (st, .err .trainingTextTooShort)
    else ({ st with dataset := true }, .ok)

/-- `initTraining` (`lora_train.cpp:355-387`): guard on context, model and
adapter, then `llama_opt_init` is called. -/
def initTraining (st : JState) : JState × JResult :=
  if ¬(st.ctx && st.model && st.adapter) then (st, .err .trainingNotReady)
  else ({ st with optInit := true }, .ok)

/-- `trainEpoch` guard (`lora_train.cpp:392-398`): only `g_context` and
`g_dataset` are checked; `.ok` means `llama_opt_epoch` runs. -/
def trainEpoch (st : JState) : JState × JResult :=
  if ¬(st.ctx && st.dataset) then (st, .err .trainingNotInitialized)
  else (st, .ok)

/-- `hasModel` (`lora_inference.cpp:697-701`). -/
def hasModel (st : JState) : Bool := st.model && st.ctx

/-- `hasAdapter` (`lora_inference.cpp:689-693`). -/
def hasAdapter (st : JState) : Bool := st.adapter

/-- `cleanupLlama` (`lora_train.cpp:615-637`): everything freed. -/
def cleanupLlama (_ : JState) : JState := ⟨false, false, false, false, false, false⟩

/-! ## UTF-8 scanner lemmas -/

theorem isCont_eq_false_of_leadLen_ne_zero (b : Nat) (h : leadLen b ≠ 0) :
    isCont b = false := by
  simp only [isCont, beq_eq_false_iff_ne, ne_eq]
  intro hc
  simp only [leadLen] at h
  split_ifs at h with h1 h2 h3 h4
  · have e1 : b &&& 0xC0 &&& 0x80 = 0 := by
      rw [Nat.land_assoc, show (0xC0 &&& 0x80 : Nat) = 0x80 from by decide]
      exact h1
    rw [hc] at e1
    exact absurd e1 (by decide)
  · have e1 : b &&& 0xE0 &&& 0xC0 = 0x80 := by
      rw [Nat.land_assoc, show (0xE0 &&& 0xC0 : Nat) = 0xC0 from by decide]
      exact hc
    rw [h2] at e1
    exact absurd e1 (by decide)
  · have e1 : b &&& 0xF0 &&& 0xC0 = 0x80 := by
      rw [Nat.land_assoc, show (0xF0 &&& 0xC0 : Nat) = 0xC0 from by decide]
      exact hc
    rw [h3] at e1
    exact absurd e1 (by decide)
  · have e1 : b &&& 0xF8 &&& 0xC0 = 0x80 := by
      rw [Nat.land_assoc, show (0xF8 &&& 0xC0 : Nat) = 0xC0 from by decide]
      exact hc
    rw [h4] at e1
    exact absurd e1 (by decide)
  · exact h rfl

theorem utf8Scan_append : ∀ (u : List Nat) (k : Nat) (v : List Nat),
    utf8Scan k u = true → utf8Scan k (u ++ v) = utf8Scan 0 v := by
  intro u
  induction u with
  | nil =>
    intro k v h
    cases k with
    | zero => simp
    | succ k => simp [utf8Scan] at h
  | cons b rest ih =>
    intro k v h
    cases k with
    | zero =>
      simp only [utf8Scan, List.cons_append] at h ⊢
      by_cases hb : leadLen b = 0
      · simp [hb] at h
      · simp only [hb, if_false] at h ⊢
        exact ih _ v h
    | succ k =>
      simp only [utf8Scan, Bool.and_eq_true] at h
      simp only [utf8Scan, List.cons_append, List.append_eq]
      rw [ih k v h.2]
      simp [h.1]

theorem utf8ScanP_append : ∀ (u : List Nat) (k : Nat) (v : List Nat),
    utf8Scan k u = true → utf8ScanP k (u ++ v) = utf8ScanP 0 v := by
  intro u
  induction u with
  | nil =>
    intro k v h
    cases k with
    | zero => simp
    | succ k => simp [utf8Scan] at h
  | cons b rest ih =>
    intro k v h
    cases k with
    | zero =>
      simp only [utf8Scan] at h
      simp only [utf8ScanP, List.cons_append]
      by_cases hb : leadLen b = 0
      · simp [hb] at h
      · simp only [hb, if_false] at h ⊢
        exact ih _ v h
    | succ k =>
      simp only [utf8Scan, Bool.and_eq_true] at h
      simp only [utf8ScanP, List.cons_append, List.append_eq]
      rw [ih k v h.2]
      simp [h.1]

theorem utf8ScanP_take : ∀ (v : List Nat) (k m : Nat),
    utf8ScanP k v = true → utf8ScanP k (v.take m) = true := by
  intro v
  induction v with
  | nil => intro k m h; simpa using h
  | cons b rest ih =>
    intro k m h
    cases m with
    | zero =>
      cases k <;> simp [utf8ScanP]
    | succ m =>
      cases k with
      | zero =>
        simp only [utf8ScanP, List.take_succ_cons] at h ⊢
        by_cases hb : leadLen b = 0
        · simp [hb] at h
        · simp only [hb, if_false] at h ⊢
          exact ih _ m h
      | succ k =>
        simp only [utf8ScanP, List.take_succ_cons, Bool.and_eq_true] at h ⊢
        exact ⟨h.1, ih k m h.2⟩

theorem utf8Scan_conts : ∀ (cs : List Nat) (rest : List Nat),
    cs.all isCont = true → utf8Scan cs.length (cs ++ rest) = utf8Scan 0 rest := by
  intro cs
  induction cs with
  | nil => intro rest _; simp
  | cons c cs ih =>
    intro rest h
    simp only [List.all_cons, Bool.and_eq_true] at h
    simp only [List.length_cons, List.cons_append, utf8Scan, h.1, Bool.true_and]
    exact ih rest h.2

theorem utf8ScanP_cont_split : ∀ (k : Nat) (l : List Nat), utf8ScanP k l = true →
    (∃ cs rest, l = cs ++ rest ∧ cs.length = k ∧ cs.all isCont = true ∧
      utf8ScanP 0 rest = true) ∨
    (l.all isCont = true ∧ l.length < k) := by
  intro k
  induction k with
  | zero =>
    intro l h
    exact .inl ⟨[], l, rfl, rfl, rfl, h⟩
  | succ k ih =>
    intro l h
    cases l with
    | nil => exact .inr ⟨rfl, Nat.succ_pos k⟩
    | cons b rest =>
      simp only [utf8ScanP, Bool.and_eq_true] at h
      rcases ih rest h.2 with ⟨cs, r, hr, hlen, hall, hscan⟩ | ⟨hall, hlen⟩
      · refine .inl ⟨b :: cs, r, by simp [hr], by simp [hlen], ?_, hscan⟩
        simp [hall, h.1]
      · refine .inr ⟨?_, ?_⟩
        · simp [hall, h.1]
        · simp only [List.length_cons]
          omega

theorem utf8Scan_cont_split : ∀ (k : Nat) (l : List Nat), utf8Scan k l = true →
    ∃ cs rest, l = cs ++ rest ∧ cs.length = k ∧ cs.all isCont = true ∧
      utf8Scan 0 rest = true := by
  intro k
  induction k with
  | zero =>
    intro l h
    exact ⟨[], l, rfl, rfl, rfl, h⟩
  | succ k ih =>
    intro l h
    cases l with
    | nil => simp [utf8Scan] at h
    | cons b rest =>
      simp only [utf8Scan, Bool.and_eq_true] at h
      obtain ⟨cs, r, hr, hlen, hall, hscan⟩ := ih rest h.2
      refine ⟨b :: cs, r, by simp [hr], by simp [hlen], ?_, hscan⟩
      simp [hall, h.1]

theorem utf8ScanP_decomp : ∀ (n : Nat) (v : List Nat), v.length ≤ n →
    utf8ScanP 0 v = true →
    utf8Scan 0 v = true ∨
    ∃ u b cs, v = u ++ b :: cs ∧ utf8Scan 0 u = true ∧ 2 ≤ leadLen b ∧
      cs.length + 1 < leadLen b ∧ cs.all isCont = true := by
  intro n
  induction n with
  | zero =>
    intro v hlen _
    have : v = [] := List.eq_nil_of_length_eq_zero (Nat.le_zero.mp hlen)
    subst this
    exact .inl rfl
  | succ n ih =>
    intro v hlen h
    cases v with
    | nil => exact .inl rfl
    | cons b rest =>
      simp only [utf8ScanP] at h
      by_cases hb : leadLen b = 0
      · simp [hb] at h
      simp only [hb, if_false] at h
      rcases utf8ScanP_cont_split (leadLen b - 1) rest h with
        ⟨cs, r, hr, hcsl, hall, hscan⟩ | ⟨hall, hfrag⟩
      · subst hr
        have hrlen : r.length ≤ n := by
          simp only [List.length_cons, List.length_append] at hlen
          omega
        rcases ih r hrlen hscan with hc | ⟨u, b', cs', hr', hu, hb2, hlt, hall'⟩
        · left
          simp only [utf8Scan, hb, if_false]
          rw [← hcsl, utf8Scan_conts cs r hall]
          exact hc
        · right
          subst hr'
          refine ⟨b :: (cs ++ u), b', cs', by simp, ?_, hb2, hlt, hall'⟩
          simp only [utf8Scan, hb, if_false]
          rw [← hcsl, utf8Scan_conts cs u hall]
          exact hu
      · right
        refine ⟨[], b, rest, rfl, rfl, ?_, ?_, hall⟩
        · omega
        · omega

theorem utf8Scan_last_char : ∀ (n : Nat) (v : List Nat), v.length ≤ n →
    utf8Scan 0 v = true →
    v = [] ∨
    ∃ u b cs, v = u ++ b :: cs ∧ utf8Scan 0 u = true ∧
      leadLen b = cs.length + 1 ∧ cs.all isCont = true := by
  intro n
  induction n with
  | zero =>
    intro v hlen _
    exact .inl (List.eq_nil_of_length_eq_zero (Nat.le_zero.mp hlen))
  | succ n ih =>
    intro v hlen h
    cases v with
    | nil => exact .inl rfl
    | cons b rest =>
      simp only [utf8Scan] at h
      by_cases hb : leadLen b = 0
      · simp [hb] at h
      simp only [hb, if_false] at h
      obtain ⟨cs, r, hr, hcsl, hall, hscan⟩ := utf8Scan_cont_split (leadLen b - 1) rest h
      subst hr
      have hrlen : r.length ≤ n := by
        simp only [List.length_cons, List.length_append] at hlen
        omega
      rcases ih r hrlen hscan with hnil | ⟨u, b', cs', hr', hu, hlead, hall'⟩
      · right
        subst hnil
        refine ⟨[], b, cs, by simp, rfl, ?_, hall⟩
        omega
      · right
        subst hr'
        refine ⟨b :: (cs ++ u), b', cs', by simp, ?_, hlead, hall'⟩
        simp only [utf8Scan, hb, if_false]
        rw [← hcsl, utf8Scan_conts cs u hall]
        exact hu

theorem trailing_cont_count (u : List Nat) (b : Nat) (cs : List Nat)
    (hb : isCont b = false) (hcs : cs.all isCont = true) :
    ((u ++ b :: cs).reverse.takeWhile isCont).length = cs.length := by
  rw [List.reverse_append, List.reverse_cons, List.append_assoc,
      List.takeWhile_append_of_pos (by
        intro a ha
        exact (List.all_eq_true.mp hcs) a (List.mem_reverse.mp ha)),
      List.singleton_append, List.takeWhile_cons_of_neg (by simp [hb])]
  simp

theorem getD_append_cons (u : List Nat) (b : Nat) (cs : List Nat) :
    (u ++ b :: cs).getD u.length 0 = b := by
  rw [List.getD_eq_getElem?_getD, List.getElem?_append_right (le_refl u.length)]
  simp

theorem utf8_complete_len_frag (u : List Nat) (b : Nat) (cs : List Nat)
    (hb : leadLen b ≠ 0) (hlt : cs.length + 1 < leadLen b)
    (hall : cs.all isCont = true) :
    utf8_complete_len (u ++ b :: cs) = u.length := by
  have hbc : isCont b = false := isCont_eq_false_of_leadLen_ne_zero b hb
  have hL : (u ++ b :: cs).length = u.length + (cs.length + 1) := by
    simp [List.length_append]
  simp only [utf8_complete_len, trailing_cont_count u b cs hbc hall, hL]
  rw [if_neg (by omega), if_neg (by omega)]
  have hidx : u.length + (cs.length + 1) - 1 - cs.length = u.length := by omega
  rw [hidx, getD_append_cons]
  rw [if_neg hb, if_neg (by omega)]

theorem utf8_complete_len_of_complete (v : List Nat) (h : utf8Scan 0 v = true) :
    utf8_complete_len v = v.length := by
  rcases utf8Scan_last_char v.length v (le_refl _) h with rfl | ⟨u, b, cs, rfl, _, hlead, hall⟩
  · simp [utf8_complete_len]
  · have hb : leadLen b ≠ 0 := by omega
    have hbc := isCont_eq_false_of_leadLen_ne_zero b hb
    have hL : (u ++ b :: cs).length = u.length + (cs.length + 1) := by
      simp [List.length_append]
    simp only [utf8_complete_len, trailing_cont_count u b cs hbc hall, hL]
    rw [if_neg (by omega), if_neg (by omega)]
    have hidx : u.length + (cs.length + 1) - 1 - cs.length = u.length := by omega
    rw [hidx, getD_append_cons]
    rw [if_neg hb, if_pos (by omega)]

theorem utf8_complete_len_le (buf : List Nat) :
    utf8_complete_len buf ≤ buf.length := by
  simp only [utf8_complete_len]
  repeat' split
  all_goals omega

theorem utf8Scan_take_complete_len (v : List Nat) (h : utf8ScanP 0 v = true) :
    utf8Scan 0 (v.take (utf8_complete_len v)) = true := by
  rcases utf8ScanP_decomp v.length v (le_refl _) h with
    hc | ⟨u, b, cs, rfl, hu, hb2, hlt, hall⟩
  · rw [utf8_complete_len_of_complete v hc, List.take_length]
    exact hc
  · rw [utf8_complete_len_frag u b cs (by omega) hlt hall,
        List.take_append_of_le_length (le_refl u.length), List.take_length]
    exact hu

theorem stop_strs_length_le : ∀ s ∈ stop_strs, s.length ≤ max_stop_len := by
  decide

theorem byteStream_zero (steps : List GenStep) : byteStream steps 0 = [] := by
  simp [byteStream]

theorem byteStream_cons (step : GenStep) (rest : List GenStep) (n : Nat) :
    byteStream (step :: rest) (n + 1) = step.piece ++ byteStream rest n := by
  simp [byteStream, List.take_succ_cons]

theorem byteStream_of_le (steps : List GenStep) (n : Nat)
    (h : steps.length ≤ n) : byteStream steps n = byteStream steps steps.length := by
  simp [byteStream, List.take_of_length_le, h]

theorem drop_scanP (l : List Nat) (m : Nat)
    (hpre : utf8ScanP 0 l = true) (hbound : utf8Scan 0 (l.take m) = true) :
    utf8ScanP 0 (l.drop m) = true := by
  have h := hpre
  rw [← List.take_append_drop m l] at h
  rwa [utf8ScanP_append _ 0 _ hbound] at h

theorem flushTail_spec (st : StreamState)
    (hpre : utf8ScanP 0 st.accumulated = true)
    (hbound : utf8Scan 0 (st.accumulated.take st.n_streamed) = true)
    (hchunks : ∀ c ∈ st.chunks, utf8Scan 0 c = true) :
    (∀ c ∈ (flushTail st).chunks, utf8Scan 0 c = true) ∧
    (flushTail st).accumulated = st.accumulated ∧
    (flushTail st).n_streamed = st.n_streamed := by
  unfold flushTail
  dsimp only
  split
  · split
    · refine ⟨?_, rfl, rfl⟩
      intro c hc
      simp only [List.mem_append, List.mem_singleton] at hc
      rcases hc with hc | rfl
      · exact hchunks c hc
      · exact utf8Scan_take_complete_len _ (drop_scanP _ _ hpre hbound)
    · exact ⟨hchunks, rfl, rfl⟩
  · exact ⟨hchunks, rfl, rfl⟩

theorem streamLoop_chunks_complete :
    ∀ (steps : List GenStep) (st : StreamState),
    (∀ n, utf8ScanP 0 (st.accumulated ++ byteStream steps n) = true) →
    utf8Scan 0 (st.accumulated.take st.n_streamed) = true →
    (st.n_streamed = 0 ∨ st.n_streamed + max_stop_len ≤ st.accumulated.length) →
    (∀ c ∈ st.chunks, utf8Scan 0 c = true) →
    ∀ c ∈ (streamLoop steps st).1.chunks, utf8Scan 0 c = true := by
  intro steps
  induction steps with
  | nil =>
    intro st Hacc hbound _ hchunks
    have hpre : utf8ScanP 0 st.accumulated = true := by
      have h := Hacc 0
      rwa [byteStream_zero, List.append_nil] at h
    simpa only [streamLoop] using (flushTail_spec st hpre hbound hchunks).1
  | cons step rest ih =>
    intro st Hacc hbound hst hchunks
    have hpre0 : utf8ScanP 0 st.accumulated = true := by
      have h := Hacc 0
      rwa [byteStream_zero, List.append_nil] at h
    have hstreamed_le : st.n_streamed ≤ st.accumulated.length := by
      rcases hst with h | h <;> omega
    have hpre1 : utf8ScanP 0 (st.accumulated ++ step.piece) = true := by
      have h := Hacc 1
      rwa [byteStream_cons, byteStream_zero, List.append_nil] at h
    have hbound1 : utf8Scan 0 ((st.accumulated ++ step.piece).take st.n_streamed) = true := by
      rwa [List.take_append_of_le_length hstreamed_le]
    have Hacc2 : ∀ n,
        utf8ScanP 0 ((st.accumulated ++ step.piece) ++ byteStream rest n) = true := by
      intro n
      have h := Hacc (n + 1)
      rwa [byteStream_cons, ← List.append_assoc] at h
    have hlen_acc1 : st.accumulated.length ≤ (st.accumulated ++ step.piece).length := by
      simp [List.length_append]
    simp only [streamLoop]
    by_cases heog : step.eog = true
    · rw [if_pos heog]
      exact (flushTail_spec st hpre0 hbound hchunks).1
    · rw [if_neg heog]
      cases hfind : findStop (st.accumulated ++ step.piece) with
      | some s =>
        simp only [hfind]
        have hs_mem : s ∈ stop_strs := by
          unfold findStop at hfind
          exact List.mem_of_find?_eq_some hfind
        have hslen : s.length ≤ max_stop_len := stop_strs_length_le s hs_mem
        have htr_pre : utf8ScanP 0
            ((st.accumulated ++ step.piece).take
              ((st.accumulated ++ step.piece).length - s.length)) = true :=
          utf8ScanP_take _ 0 _ hpre1
        have hbound_tr : utf8Scan 0
            (((st.accumulated ++ step.piece).take
              ((st.accumulated ++ step.piece).length - s.length)).take st.n_streamed) =
            true := by
          rcases hst with h0 | hge
          · rw [h0, List.take_zero]
            rfl
          · have hs_le : st.n_streamed ≤ (st.accumulated ++ step.piece).length - s.length := by
              omega
            rw [List.take_take, inf_eq_left.mpr hs_le]
            exact hbound1
        obtain ⟨hc1, he1, he2⟩ :=
          flushTail_spec
            { st with accumulated := ((st.accumulated ++ step.piece).take
                ((st.accumulated ++ step.piece).length - s.length)) }
            htr_pre hbound_tr hchunks
        obtain ⟨hc2, _, _⟩ :=
          flushTail_spec _ (by rw [he1]; exact htr_pre)
            (by rw [he1, he2]; exact hbound_tr) hc1
        exact hc2
      | none =>
        simp only [hfind]
        have hcontinue : ∀ st2 : StreamState,
            (∀ n, utf8ScanP 0 (st2.accumulated ++ byteStream rest n) = true) →
            utf8Scan 0 (st2.accumulated.take st2.n_streamed) = true →
            (st2.n_streamed = 0 ∨ st2.n_streamed + max_stop_len ≤ st2.accumulated.length) →
            (∀ c ∈ st2.chunks, utf8Scan 0 c = true) →
            ∀ c ∈ (if step.decodeOk = true then streamLoop rest st2
                   else (st2, StreamOutcome.errored)).1.chunks, utf8Scan 0 c = true := by
          intro st2 a b c d
          by_cases hdec : step.decodeOk = true
          · rw [if_pos hdec]
            exact ih st2 a b c d
          · rw [if_neg hdec]
            exact d
        by_cases hemit : st.n_streamed + max_stop_len < (st.accumulated ++ step.piece).length
        · by_cases hsafe : 0 < utf8_complete_len
              (((st.accumulated ++ step.piece).drop st.n_streamed).take
                ((st.accumulated ++ step.piece).length - max_stop_len - st.n_streamed))
          · rw [if_pos hemit, if_pos hsafe]
            have hdrop_pre : utf8ScanP 0 ((st.accumulated ++ step.piece).drop st.n_streamed) =
                true :=
              drop_scanP _ _ hpre1 hbound1
            have hw_pre : utf8ScanP 0
                (((st.accumulated ++ step.piece).drop st.n_streamed).take
                  ((st.accumulated ++ step.piece).length - max_stop_len - st.n_streamed)) =
                true :=
              utf8ScanP_take _ 0 _ hdrop_pre
            have hchunk_complete := utf8Scan_take_complete_len _ hw_pre
            have hsafe_le : utf8_complete_len
                (((st.accumulated ++ step.piece).drop st.n_streamed).take
                  ((st.accumulated ++ step.piece).length - max_stop_len - st.n_streamed)) ≤
                (st.accumulated ++ step.piece).length - max_stop_len - st.n_streamed := by
              refine le_trans (utf8_complete_len_le _) ?_
              rw [List.length_take]
              exact inf_le_left
            have hchunk_eq : ((st.accumulated ++ step.piece).drop st.n_streamed).take
                (utf8_complete_len
                  (((st.accumulated ++ step.piece).drop st.n_streamed).take
                    ((st.accumulated ++ step.piece).length - max_stop_len - st.n_streamed))) =
                (((st.accumulated ++ step.piece).drop st.n_streamed).take
                  ((st.accumulated ++ step.piece).length - max_stop_len - st.n_streamed)).take
                (utf8_complete_len
                  (((st.accumulated ++ step.piece).drop st.n_streamed).take
                    ((st.accumulated ++ step.piece).length - max_stop_len - st.n_streamed))) := by
              rw [List.take_take, inf_eq_left.mpr hsafe_le]
            refine hcontinue _ Hacc2 ?_ ?_ ?_
            · rw [List.take_add, utf8Scan_append _ 0 _ hbound1, hchunk_eq]
              exact hchunk_complete
            · right
              dsimp only
              omega
            · intro c hc
              rcases List.mem_append.mp hc with hc | hc
              · exact hchunks c hc
              · rw [List.mem_singleton] at hc
                subst hc
                rw [hchunk_eq]
                exact hchunk_complete
          · rw [if_pos hemit, if_neg hsafe]
            refine hcontinue _ Hacc2 hbound1 ?_ hchunks
            rcases hst with h | h
            · exact .inl h
            · exact .inr (by dsimp only; omega)
        · rw [if_neg hemit]
          refine hcontinue _ Hacc2 hbound1 ?_ hchunks
          rcases hst with h | h
          · exact .inl h
          · exact .inr (by dsimp only; omega)

theorem streamLoop_errored_concat :
    ∀ (steps : List GenStep) (st : StreamState),
    st.chunks.flatten = st.accumulated.take st.n_streamed →
    st.n_streamed ≤ st.accumulated.length →
    (streamLoop steps st).2 = .errored →
    (streamLoop steps st).1.chunks.flatten =
      (streamLoop steps st).1.accumulated.take (streamLoop steps st).1.n_streamed := by
  intro steps
  induction steps with
  | nil =>
    intro st _ _ herr
    simp only [streamLoop] at herr
    simp at herr
  | cons step rest ih =>
    intro st hconcat hle herr
    simp only [streamLoop] at herr ⊢
    by_cases heog : step.eog = true
    · rw [if_pos heog] at herr
      simp at herr
    · rw [if_neg heog] at herr ⊢
      cases hfind : findStop (st.accumulated ++ step.piece) with
      | some s =>
        simp only [hfind] at herr
        simp at herr
      | none =>
        simp only [hfind] at herr ⊢
        have hcont2 : ∀ st2 : StreamState,
            st2.chunks.flatten = st2.accumulated.take st2.n_streamed →
            st2.n_streamed ≤ st2.accumulated.length →
            (if step.decodeOk = true then streamLoop rest st2
             else (st2, StreamOutcome.errored)).2 = .errored →
            (if step.decodeOk = true then streamLoop rest st2
             else (st2, StreamOutcome.errored)).1.chunks.flatten =
              (if step.decodeOk = true then streamLoop rest st2
               else (st2, StreamOutcome.errored)).1.accumulated.take
                (if step.decodeOk = true then streamLoop rest st2
                 else (st2, StreamOutcome.errored)).1.n_streamed := by
          intro st2 a b c
          by_cases hdec : step.decodeOk = true
          · rw [if_pos hdec] at c ⊢
            exact ih st2 a b c
          · rw [if_neg hdec]
            exact a
        have hconcat1 : st.chunks.flatten = (st.accumulated ++ step.piece).take st.n_streamed := by
          rw [List.take_append_of_le_length hle]
          exact hconcat
        have hle1 : st.n_streamed ≤ (st.accumulated ++ step.piece).length := by
          simp only [List.length_append]
          omega
        by_cases hemit : st.n_streamed + max_stop_len < (st.accumulated ++ step.piece).length
        · by_cases hsafe : 0 < utf8_complete_len
              (((st.accumulated ++ step.piece).drop st.n_streamed).take
                ((st.accumulated ++ step.piece).length - max_stop_len - st.n_streamed))
          · rw [if_pos hemit, if_pos hsafe] at herr ⊢
            have hsafe_le : utf8_complete_len
                (((st.accumulated ++ step.piece).drop st.n_streamed).take
                  ((st.accumulated ++ step.piece).length - max_stop_len - st.n_streamed)) ≤
                (st.accumulated ++ step.piece).length - max_stop_len - st.n_streamed := by
              refine le_trans (utf8_complete_len_le _) ?_
              rw [List.length_take]
              exact inf_le_left
            refine hcont2 _ ?_ ?_ herr
            · dsimp only
              rw [List.flatten_append, hconcat1]
              simp only [List.flatten_cons, List.flatten_nil, List.append_nil]
              rw [← List.take_add]
            · dsimp only
              omega
          · rw [if_pos hemit, if_neg hsafe] at herr ⊢
            exact hcont2 _ hconcat1 hle1 herr
        · rw [if_neg hemit] at herr ⊢
          exact hcont2 _ hconcat1 hle1 herr

theorem map_getD_range (l : List Nat) (d : Nat) :
    (List.range l.length).map (fun i => l.getD i d) = l := by
  induction l with
  | nil => simp
  | cons t rest ih =>
    rw [List.length_cons, List.range_succ_eq_map]
    simp only [List.map_cons, List.map_map]
    have hcomp : ((fun i => (t :: rest).getD i d) ∘ Nat.succ) = fun i => rest.getD i d := by
      funext i
      rfl
    rw [hcomp, ih]
    rfl

theorem prefillGo_flatten (nBatch total : Nat) (hb : 1 ≤ nBatch) :
    ∀ (fuel : Nat) (ts : List Nat) (idx : Nat), ts.length ≤ fuel →
    (prefillGo nBatch total ts idx).flatten =
      (List.range ts.length).map
        (fun i => (⟨ts.getD i 0, idx + i, idx + i + 1 == total⟩ : BatchEntry)) := by
  intro fuel
  induction fuel with
  | zero =>
    intro ts idx h
    have : ts = [] := List.eq_nil_of_length_eq_zero (Nat.le_zero.mp h)
    subst this
    simp [prefillGo]
  | succ n ihf =>
    intro ts idx hlen
    cases ts with
    | nil => simp [prefillGo]
    | cons t rest =>
      have htake_pos : ¬(min nBatch (t :: rest).length = 0) := by
        simp only [List.length_cons]
        omega
      rw [prefillGo, dif_neg htake_pos, List.flatten_cons,
          ihf ((t :: rest).drop (min nBatch (t :: rest).length)) _ (by
            rw [List.length_drop]
            simp only [List.length_cons] at hlen ⊢
            omega)]
      have hsplit : (t :: rest).length =
          min nBatch (t :: rest).length +
            ((t :: rest).length - min nBatch (t :: rest).length) := by
        have := Nat.min_le_right nBatch (t :: rest).length
        omega
      conv_rhs => rw [hsplit]
      rw [List.range_add, List.map_append, List.map_map, List.length_drop]
      congr 1
      refine List.map_congr_left ?_
      intro i _
      simp only [Function.comp_apply, BatchEntry.mk.injEq]
      refine ⟨?_, by omega, ?_⟩
      · rw [List.getD_eq_getElem?_getD, List.getD_eq_getElem?_getD, List.getElem?_drop]
      · have harith : idx + min nBatch (t :: rest).length + i =
            idx + (min nBatch (t :: rest).length + i) := by omega
        rw [harith]

theorem prefillGo_chunk_length (nBatch total : Nat) :
    ∀ (fuel : Nat) (ts : List Nat) (idx : Nat), ts.length ≤ fuel →
    ∀ c ∈ prefillGo nBatch total ts idx, c.length ≤ nBatch := by
  intro fuel
  induction fuel with
  | zero =>
    intro ts idx h
    have : ts = [] := List.eq_nil_of_length_eq_zero (Nat.le_zero.mp h)
    subst this
    simp [prefillGo]
  | succ n ihf =>
    intro ts idx hlen
    cases ts with
    | nil => simp [prefillGo]
    | cons t rest =>
      by_cases htake : min nBatch (t :: rest).length = 0
      · rw [prefillGo, dif_pos htake]
        simp
      · rw [prefillGo, dif_neg htake]
        intro c hc
        rcases List.mem_cons.mp hc with rfl | hc
        · rw [List.length_map, List.length_range]
          exact Nat.min_le_left _ _
        · refine ihf _ _ (by
            rw [List.length_drop]
            simp only [List.length_cons] at hlen ⊢
            omega) c hc

theorem padTokensGo_spec (o : List Nat) (m : Nat) (ho : o ≠ []) :
    ∀ (fuel : Nat) (cur : List Nat), m ≤ cur.length + fuel →
    ∃ k, padTokensGo o m fuel cur = cur ++ (List.replicate k o).flatten ∧
      m ≤ (padTokensGo o m fuel cur).length := by
  have ho1 : 1 ≤ o.length := List.length_pos.mpr ho
  intro fuel
  induction fuel with
  | zero =>
    intro cur h
    refine ⟨0, by simp [padTokensGo], ?_⟩
    simp only [padTokensGo]
    omega
  | succ n ih =>
    intro cur h
    by_cases hlt : cur.length < m
    · obtain ⟨k, hk, hlen⟩ := ih (cur ++ o) (by
        simp only [List.length_append]
        omega)
      refine ⟨k + 1, ?_, ?_⟩
      · simp only [padTokensGo, if_pos hlt]
        rw [hk, List.replicate_succ, List.flatten_cons, ← List.append_assoc]
      · simp only [padTokensGo, if_pos hlt]
        exact hlen
    · refine ⟨0, ?_, ?_⟩
      · simp [padTokensGo, if_neg hlt]
      · simp only [padTokensGo, if_neg hlt]
        omega

/-! ## Claim theorems -/

/-- C1 (code bug): on a stop-string match the stop-flush emits the
not-yet-streamed prefix but does not advance `n_streamed_chars`
(`lora_inference.cpp:595-606`), so the end-of-loop flush
(`lora_inference.cpp:651-662`) emits the same bytes again: for the
spec's own scenario (pieces `"hi"` then `"<|im_end|>"`) the emitted
chunks are `["hi", "hi"]` and their concatenation is not the
stop-truncated accumulated text `"hi"`. -/
theorem c1_stop_flush_double_emission :
    (streamGenerate [⟨false, asciiBytes "hi", true⟩,
                     ⟨false, asciiBytes "<|im_end|>", true⟩]).2 = .completed ∧
    (streamGenerate [⟨false, asciiBytes "hi", true⟩,
                     ⟨false, asciiBytes "<|im_end|>", true⟩]).1.accumulated =
      asciiBytes "hi" ∧
    (streamGenerate [⟨false, asciiBytes "hi", true⟩,
                     ⟨false, asciiBytes "<|im_end|>", true⟩]).1.chunks =
      [asciiBytes "hi", asciiBytes "hi"] ∧
    (streamGenerate [⟨false, asciiBytes "hi", true⟩,
                     ⟨false, asciiBytes "<|im_end|>", true⟩]).1.chunks.flatten ≠
      (streamGenerate [⟨false, asciiBytes "hi", true⟩,
                       ⟨false, asciiBytes "<|im_end|>", true⟩]).1.accumulated := by
  decide

/-- C2 counterexample: a mid-loop decode failure delivers `onError`
without flushing the held-back suffix (`lora_inference.cpp:636-647`):
with one 25-byte all-ASCII piece and a failing decode, only the first 6
bytes were streamed and the remaining 19 are dropped, even though the
accumulated text is entirely complete UTF-8. -/
theorem c2_decode_failure_drops_heldback :
    (streamGenerate [⟨false, asciiBytes "abcdefghijklmnopqrstuvwxy", false⟩]).2 =
      .errored ∧
    (streamGenerate [⟨false, asciiBytes "abcdefghijklmnopqrstuvwxy", false⟩]).1.chunks =
      [asciiBytes "abcdef"] ∧
    (streamGenerate [⟨false, asciiBytes "abcdefghijklmnopqrstuvwxy", false⟩]).1.accumulated =
      asciiBytes "abcdefghijklmnopqrstuvwxy" ∧
    utf8_complete_len
      (streamGenerate [⟨false, asciiBytes "abcdefghijklmnopqrstuvwxy", false⟩]).1.accumulated =
      25 ∧
    (streamGenerate [⟨false, asciiBytes "abcdefghijklmnopqrstuvwxy", false⟩]).1.chunks.flatten ≠
      (streamGenerate [⟨false, asciiBytes "abcdefghijklmnopqrstuvwxy", false⟩]).1.accumulated := by
  decide

/-- C2 (amended): when a streaming call terminates with `onError`, the
concatenation of the emitted chunks is exactly the already-streamed
prefix `accumulated.take n_streamed_chars`; the accumulated-but-not-yet-
streamed suffix is not flushed before the error. -/
theorem c2_error_emits_exactly_streamed_prefix (steps : List GenStep)
    (h : (streamGenerate steps).2 = .errored) :
    (streamGenerate steps).1.chunks.flatten =
      (streamGenerate steps).1.accumulated.take (streamGenerate steps).1.n_streamed :=
  streamLoop_errored_concat steps ⟨[], 0, []⟩ (by simp) (by simp) h

theorem c2_error_emits_exactly_streamed_prefix_witness :
    (streamGenerate [⟨false, asciiBytes "abcdefghijklmnopqrstuvwxyz012", false⟩]).2 =
      .errored ∧
    (streamGenerate [⟨false, asciiBytes "abcdefghijklmnopqrstuvwxyz012", false⟩]).1.chunks.flatten =
      (streamGenerate [⟨false, asciiBytes "abcdefghijklmnopqrstuvwxyz012", false⟩]).1.accumulated.take
        (streamGenerate [⟨false, asciiBytes "abcdefghijklmnopqrstuvwxyz012", false⟩]).1.n_streamed :=
  ⟨by decide,
   c2_error_emits_exactly_streamed_prefix
     [⟨false, asciiBytes "abcdefghijklmnopqrstuvwxyz012", false⟩] (by decide)⟩

/-- C3 counterexample: in the non-streaming `generate`, a nonzero decode
of a newly sampled token only breaks the loop
(`lora_inference.cpp:419-422`); the call returns the partial text `"hi"`
as an ordinary success, not the `DecodeFailure` error. -/
theorem c3_midloop_decode_failure_reported_as_success :
    generate [1] 2048 true
        [⟨false, asciiBytes "hi", false⟩, ⟨false, asciiBytes "!!", true⟩] =
      .ok (asciiBytes "hi") ∧
    generate [1] 2048 true
        [⟨false, asciiBytes "hi", false⟩, ⟨false, asciiBytes "!!", true⟩] ≠
      .error .decodeFailure := by
  refine ⟨rfl, ?_⟩
  intro hcontra
  rw [show generate [1] 2048 true
      [⟨false, asciiBytes "hi", false⟩, ⟨false, asciiBytes "!!", true⟩] =
    .ok (asciiBytes "hi") from rfl] at hcontra
  exact Except.noConfusion hcontra

/-- C3 (amended): a decode failure during prompt prefill is reported as
`DecodeFailure`; a decode failure on a newly sampled mid-loop token
terminates the loop immediately (no retry, the remaining steps are
ignored) and the call returns the accumulated text as an ordinary
success. -/
theorem c3_decode_failure_semantics (promptTokens : List Nat) (nCtx : Nat)
    (steps : List GenStep) (acc piece : List Nat) (rest : List GenStep)
    (hne : promptTokens.length ≠ 0) (hlen : promptTokens.length < nCtx)
    (hstop : findStop (acc ++ piece) = none) :
    generate promptTokens nCtx false steps = .error .decodeFailure ∧
    generateLoop (⟨false, piece, false⟩ :: rest) acc = acc ++ piece := by
  constructor
  · unfold generate
    rw [if_neg hne, if_neg (by omega), if_pos (by simp)]
  · simp [generateLoop, hstop]

theorem c3_decode_failure_semantics_witness :
    generate [1] 2048 false [] = .error .decodeFailure ∧
    generateLoop [⟨false, asciiBytes "ok", false⟩, ⟨false, asciiBytes "zz", true⟩] [] =
      [] ++ asciiBytes "ok" :=
  c3_decode_failure_semantics [1] 2048 [] [] (asciiBytes "ok")
    [⟨false, asciiBytes "zz", true⟩] (by decide) (by decide) (by decide)

/-- C4 counterexample: the non-streaming `generate` submits the whole
prompt as one `llama_batch_get_one` batch (`lora_inference.cpp:365`), so
a 600-token prompt — below the default 2048-token context — is decoded
as a single chunk larger than the 512-token batch limit. -/
theorem c4_nonstreaming_prefill_exceeds_batch_limit :
    nonStreamingPrefill (List.range 600) = [List.range 600] ∧
    inference_n_batch < (List.range 600).length ∧
    (List.range 600).length < inference_default_n_ctx := by
  refine ⟨rfl, ?_, ?_⟩ <;>
    simp [inference_n_batch, inference_default_n_ctx, List.length_range]

/-- C4 (amended): the streaming prefill (`lora_inference.cpp:509-541`)
splits the prompt into chunks of at most the batch limit, assigns the
tokens strictly increasing positions starting at 0 (the flattened
position list is exactly `range tokens.length` and the flattened token
list is the prompt), and requests logits exactly for the final token;
the non-streaming path uses a single whole-prompt batch instead. -/
theorem c4_streaming_prefill_correct (nBatch : Nat) (tokens : List Nat)
    (hb : 1 ≤ nBatch) :
    (∀ c ∈ streamingPrefill nBatch tokens, c.length ≤ nBatch) ∧
    ((streamingPrefill nBatch tokens).flatten.map BatchEntry.pos =
      List.range tokens.length) ∧
    ((streamingPrefill nBatch tokens).flatten.map BatchEntry.tok = tokens) ∧
    (∀ e ∈ (streamingPrefill nBatch tokens).flatten,
      (e.logits = true ↔ e.pos + 1 = tokens.length)) := by
  have hflat := prefillGo_flatten nBatch tokens.length hb tokens.length tokens 0 (le_refl _)
  refine ⟨?_, ?_, ?_, ?_⟩
  · intro c hc
    exact prefillGo_chunk_length nBatch tokens.length tokens.length tokens 0 (le_refl _) c hc
  · rw [streamingPrefill, hflat, List.map_map]
    have hcomp : (BatchEntry.pos ∘ fun i =>
        (⟨tokens.getD i 0, 0 + i, 0 + i + 1 == tokens.length⟩ : BatchEntry)) =
        fun i => i := by
      funext i
      simp
    rw [hcomp]
    exact List.map_id _
  · rw [streamingPrefill, hflat, List.map_map]
    have hcomp : (BatchEntry.tok ∘ fun i =>
        (⟨tokens.getD i 0, 0 + i, 0 + i + 1 == tokens.length⟩ : BatchEntry)) =
        fun i => tokens.getD i 0 := by
      funext i
      rfl
    rw [hcomp]
    exact map_getD_range tokens 0
  · rw [streamingPrefill, hflat]
    intro e he
    rcases List.mem_map.mp he with ⟨i, _, rfl⟩
    dsimp only
    rw [beq_iff_eq]

theorem c4_streaming_prefill_correct_witness :
    (streamingPrefill 512 (List.range 600)).all
      (fun c => decide (c.length ≤ 512)) = true :=
  List.all_eq_true.mpr fun c hc =>
    decide_eq_true ((c4_streaming_prefill_correct 512 (List.range 600)
      (by norm_num)).1 c hc)

/-- C5 counterexample: stop-suffix removal is single-pass, so removing
the first matching stop string can expose another configured stop string
as the final suffix: pieces `"<|end|"` and `"><|im_end|>"` yield the
returned text `"<|end|>"`, which ends with the configured stop string
`"<|end|>"`. -/
theorem c5_returned_text_ends_with_stop_string :
    generateLoop [⟨false, asciiBytes "<|end|", true⟩,
                  ⟨false, asciiBytes "><|im_end|>", true⟩] [] =
      asciiBytes "<|end|>" ∧
    asciiBytes "<|end|>" ∈ stop_strs ∧
    (asciiBytes "<|end|>").isSuffixOf
      (generateLoop [⟨false, asciiBytes "<|end|", true⟩,
                     ⟨false, asciiBytes "><|im_end|>", true⟩] []) = true := by
  decide

/-- C5 (amended): when a configured stop string matches the tail of the
accumulated text, the first matching stop string in configuration order
is removed from the tail exactly once before the loop returns; the
removal is not iterated, so the result may itself still end with a
configured stop string. -/
theorem c5_stop_match_truncates_once (acc piece : List Nat)
    (rest : List GenStep) (d : Bool) (s : List Nat)
    (hs : findStop (acc ++ piece) = some s) :
    generateLoop (⟨false, piece, d⟩ :: rest) acc =
      (acc ++ piece).take ((acc ++ piece).length - s.length) ∧
    s ∈ stop_strs ∧ s.isSuffixOf (acc ++ piece) = true := by
  have hs' : stop_strs.find? (fun t => t.isSuffixOf (acc ++ piece)) = some s := by
    unfold findStop at hs
    exact hs
  refine ⟨?_, ?_, ?_⟩
  · simp [generateLoop, hs]
  · exact List.mem_of_find?_eq_some hs'
  · have h3 := List.find?_some hs'
    simpa using h3

theorem c5_stop_match_truncates_once_witness :
    generateLoop [⟨false, asciiBytes "ok<|im_end|>", true⟩] [] =
      ([] ++ asciiBytes "ok<|im_end|>").take
        (([] ++ asciiBytes "ok<|im_end|>").length -
          (asciiBytes "<|im_end|>").length) ∧
    asciiBytes "<|im_end|>" ∈ stop_strs ∧
    (asciiBytes "<|im_end|>").isSuffixOf ([] ++ asciiBytes "ok<|im_end|>") = true :=
  c5_stop_match_truncates_once [] (asciiBytes "ok<|im_end|>") [] true
    (asciiBytes "<|im_end|>") (by decide)

/-- C6 counterexample: `trainEpoch` only guards on `g_context` and
`g_dataset` (`lora_train.cpp:396-398`); after a reachable trace of
`initLlamaBackend`, `loadModel`, `createLoraAdapter`, `setTrainingData`
— with no `initTraining` — the epoch runs (`.ok`) with the optimizer
never initialized. -/
theorem c6_epoch_runs_without_optimizer_init :
    (setTrainingDataOp
        ((createLoraAdapter
          ((loadModel (initBackend ⟨false, false, false, false, false, false⟩)
            true true).1) true true).1) 10).1 =
      ⟨true, true, true, true, true, false⟩ ∧
    (⟨true, true, true, true, true, false⟩ : JState).optInit = false ∧
    (trainEpoch ⟨true, true, true, true, true, false⟩).2 = .ok ∧
    (trainEpoch ⟨true, true, true, true, true, false⟩).2 ≠
      .err .trainingNotInitialized := by
  decide

/-- C6 (amended): `trainEpoch` returns `TrainingNotInitialized` exactly
when the context is not initialized or no dataset is set; whether the
optimizer was set up by `initTraining` is not checked. -/
theorem c6_train_epoch_guard_iff (st : JState) :
    ((trainEpoch st).2 = .err .trainingNotInitialized ↔
      ¬(st.ctx = true ∧ st.dataset = true)) ∧
    ((trainEpoch st).2 = .ok ↔ (st.ctx = true ∧ st.dataset = true)) := by
  obtain ⟨b, m, c, a, d, o⟩ := st
  cases c <;> cases d <;> simp [trainEpoch]

/-- C7 (confirmed): for every epoch over `ndata ≥ 1` examples the split
satisfies `0 < idata_split ≤ ndata`; for `ndata ≥ 2` it equals
`max 1 (min (ndata-1) (ndata*95/100))`, at least one eval example
remains and eval runs; for `ndata = 1` eval is skipped and the split is
`ndata`. -/
theorem c7_epoch_split_invariant (ndata : Nat) (h : 1 ≤ ndata) :
    0 < idata_split ndata ∧ idata_split ndata ≤ ndata ∧
    (2 ≤ ndata →
      idata_split ndata = max 1 (min (ndata - 1) (ndata * 95 / 100)) ∧
      1 ≤ ndata - idata_split ndata ∧ has_eval ndata = true) ∧
    (ndata = 1 → has_eval ndata = false ∧ idata_split ndata = ndata) := by
  by_cases h2 : 2 ≤ ndata
  · have hdiv : ndata * 95 / 100 < ndata := by
      rw [Nat.div_lt_iff_lt_mul (by norm_num)]
      nlinarith
    have hsplit_eq : idata_split ndata = max 1 (ndata * 95 / 100) := by
      unfold idata_split
      rw [if_pos h2, if_neg (by omega)]
    refine ⟨by omega, by omega, fun _ => ⟨by omega, by omega, ?_⟩,
      fun h1 => absurd h1 (by omega)⟩
    simp [has_eval, h2]
  · have h1 : ndata = 1 := by omega
    subst h1
    decide

theorem c7_epoch_split_invariant_witness :
    0 < idata_split 40 ∧ idata_split 40 ≤ 40 ∧ idata_split 40 = 38 ∧
    has_eval 40 = true := by
  obtain ⟨a, b, c, -⟩ := c7_epoch_split_invariant 40 (by norm_num)
  refine ⟨a, b, ?_, (c (by norm_num)).2.2⟩
  rw [(c (by norm_num)).1]
  decide

/-- C8 (confirmed): the dataset windower fails with
`TrainingTextTooShort` exactly when fewer than 2 tokens result; otherwise
it uses `stride = max 1 (n_ctx / 2)` and pads the token sequence by
appending whole copies of the original sequence until its length is at
least `n_ctx + 1 + stride`, building the dataset over the padded
sequence at that stride. -/
theorem c8_dataset_windower (tokens : List Nat) (nCtx : Nat) :
    (setTrainingData tokens nCtx = .error .trainingTextTooShort ↔
      tokens.length < 2) ∧
    (2 ≤ tokens.length →
      ∃ padded k,
        setTrainingData tokens nCtx = .ok (padded, max 1 (nCtx / 2)) ∧
        padded = (List.replicate (k + 1) tokens).flatten ∧
        nCtx + 1 + max 1 (nCtx / 2) ≤ padded.length) := by
  constructor
  · constructor
    · intro h
      by_contra hge
      unfold setTrainingData at h
      rw [if_neg hge] at h
      simp at h
    · intro h
      unfold setTrainingData
      rw [if_pos h]
  · intro h2
    simp only [setTrainingData]
    rw [if_neg (show ¬tokens.length < 2 by omega)]
    by_cases hshort : tokens.length < nCtx + 1 + max 1 (nCtx / 2)
    · rw [if_pos hshort]
      have hne : tokens ≠ [] := by
        intro he
        subst he
        simp at h2
      obtain ⟨k, hk, hlen⟩ :=
        padTokensGo_spec tokens (nCtx + 1 + max 1 (nCtx / 2)) hne
          (nCtx + 1 + max 1 (nCtx / 2) + 1) tokens (by omega)
      refine ⟨padTokens tokens (nCtx + 1 + max 1 (nCtx / 2)) tokens, k, rfl, ?_, ?_⟩
      · unfold padTokens
        rw [hk, List.replicate_succ, List.flatten_cons]
      · unfold padTokens
        exact hlen
    · rw [if_neg hshort]
      refine ⟨tokens, 0, rfl, by simp, by omega⟩

theorem c8_dataset_windower_witness :
    2 ≤ (List.range 10).length ∧
    ∃ padded k,
      setTrainingData (List.range 10) 8 = .ok (padded, max 1 (8 / 2)) ∧
      padded = (List.replicate (k + 1) (List.range 10)).flatten ∧
      8 + 1 + max 1 (8 / 2) ≤ padded.length :=
  ⟨by decide, (c8_dataset_windower (List.range 10) 8).2 (by decide)⟩

example : setTrainingData (List.range 10) 8 =
    .ok (List.range 10 ++ List.range 10, 4) := rfl

example : datasetNdata 20 8 4 = 3 := by decide

/-- C9 (confirmed): when the generated byte stream is a prefix of valid
UTF-8 at every step, every chunk the streaming generator passes to
`onToken` — loop delta emissions, the stop-match flush and the final
flush — is a whole number of complete UTF-8 characters, so no multi-byte
character is ever split across two chunks. -/
theorem c9_stream_chunks_never_split_utf8 (steps : List GenStep)
    (H : ∀ n, utf8PrefixOkB (byteStream steps n) = true) :
    ∀ c ∈ (streamGenerate steps).1.chunks, utf8CompleteB c = true := by
  have H' : ∀ n,
      utf8ScanP 0 ((⟨[], 0, []⟩ : StreamState).accumulated ++ byteStream steps n) =
        true := by
    intro n
    have h := H n
    simpa [utf8PrefixOkB] using h
  exact streamLoop_chunks_complete steps ⟨[], 0, []⟩ H' rfl (Or.inl rfl) (by simp)

theorem c9_stream_chunks_never_split_utf8_witness :
    (streamGenerate [⟨false, asciiBytes "hello, ", true⟩,
       ⟨false, asciiBytes "world! this is a plain ascii line", true⟩]).1.chunks.all
      (fun c => utf8CompleteB c) = true :=
  List.all_eq_true.mpr
    (c9_stream_chunks_never_split_utf8
      [⟨false, asciiBytes "hello, ", true⟩,
       ⟨false, asciiBytes "world! this is a plain ascii line", true⟩]
      (by
        intro n
        match n with
        | 0 => decide
        | 1 => decide
        | (k + 2) =>
          rw [byteStream_of_le _ _ (by simp)]
          decide))

/-- C10 counterexample: `loadModel` frees the previous context and model
but never clears `g_adapter` (`lora_inference.cpp:226-227`), so after a
reachable trace `initBackend; loadModel ok; createLoraAdapter ok;
loadModel (load fails)`, the stale adapter is still registered, and a
subsequent `loadLoraAdapter` that fails its model-loaded guard leaves
`hasAdapter() = true` after a failed adapter load. -/
theorem c10_stale_adapter_after_failed_model_load :
    (createLoraAdapter
        ((loadModel (initBackend ⟨false, false, false, false, false, false⟩)
          true true).1) true true).1 =
      ⟨true, true, true, true, false, false⟩ ∧
    (loadModel (⟨true, true, true, true, false, false⟩ : JState) false true).2 =
      .err .modelLoadFailed ∧
    (loadModel (⟨true, true, true, true, false, false⟩ : JState) false true).1 =
      ⟨true, false, false, true, false, false⟩ ∧
    (loadLoraAdapter (⟨true, false, false, true, false, false⟩ : JState) true true).2 =
      .err .modelNotLoaded ∧
    hasAdapter
      (loadLoraAdapter (⟨true, false, false, true, false, false⟩ : JState)
        true true).1 = true := by
  decide

/-- C10 (amended): after every failed `loadModel`, `hasModel()` is false
(given the invariant that a loaded model implies an initialized
backend); after a failed adapter create, load or apply attempted while a
model is loaded, `hasAdapter()` is false.  A failed adapter operation
that does not pass the model-loaded guard can leave a previously
registered adapter in place. -/
theorem c10_failed_ops_clear_handles (st : JState)
    (lOk cOk iOk aOk crOk apOk : Bool)
    (hinv : hasModel st = true → st.backendInit = true) :
    ((loadModel st lOk cOk).2.isErr = true →
      hasModel (loadModel st lOk cOk).1 = false) ∧
    (hasModel st = true →
      (loadLoraAdapter st iOk aOk).2.isErr = true →
      hasAdapter (loadLoraAdapter st iOk aOk).1 = false) ∧
    (hasModel st = true →
      (createLoraAdapter st crOk apOk).2.isErr = true →
      hasAdapter (createLoraAdapter st crOk apOk).1 = false) := by
  refine ⟨?_, ?_, ?_⟩
  · intro herr
    by_cases hb : st.backendInit = true
    · unfold loadModel at herr ⊢
      rw [if_neg (not_not_intro hb)] at herr ⊢
      cases lOk <;> cases cOk <;>
        simp [hasModel, JResult.isErr] at herr ⊢
    · unfold loadModel at herr ⊢
      rw [if_pos hb] at herr ⊢
      by_cases hmod : hasModel st = true
      · exact absurd (hinv hmod) hb
      · simpa using hmod
  · intro hmod herr
    have hmc : (st.model && st.ctx) = true := hmod
    unfold loadLoraAdapter at herr ⊢
    rw [if_neg (not_not_intro hmc)] at herr ⊢
    cases iOk <;> cases aOk <;>
      simp [hasAdapter, JResult.isErr] at herr ⊢
  · intro hmod herr
    have hmc : (st.model && st.ctx) = true := hmod
    unfold createLoraAdapter at herr ⊢
    rw [if_neg (not_not_intro hmc)] at herr ⊢
    cases crOk <;> cases apOk <;>
      simp [hasAdapter, JResult.isErr] at herr ⊢

theorem c10_failed_ops_clear_handles_witness :
    ((loadModel ⟨true, true, true, true, false, false⟩ false true).2.isErr = true →
      hasModel (loadModel ⟨true, true, true, true, false, false⟩ false true).1 =
        false) ∧
    (hasModel ⟨true, true, true, true, false, false⟩ = true →
      (loadLoraAdapter ⟨true, true, true, true, false, false⟩ true false).2.isErr =
        true →
      hasAdapter
        (loadLoraAdapter ⟨true, true, true, true, false, false⟩ true false).1 =
        false) ∧
    (hasModel ⟨true, true, true, true, false, false⟩ = true →
      (createLoraAdapter ⟨true, true, true, true, false, false⟩ true false).2.isErr =
        true →
      hasAdapter
        (createLoraAdapter ⟨true, true, true, true, false, false⟩ true false).1 =
        false) :=
  c10_failed_ops_clear_handles ⟨true, true, true, true, false, false⟩
    false true true false true false (by decide)

end LoraTrainer
